import Mathlib

/-!
Shallow embedding of the `socket_nodes` repository (Server / ConnectedNode /
RequestClass in `socket_nodes/libserver.py`, BaseNode in
`socket_nodes/libnode.py`) together with proofs about the claims of its
specification.

Modelling conventions:
- Python object references to `RequestClass` instances are modelled as
  indices into a heap `List (RequestClass α)`; a `ConnectedNode`'s
  `requests` list holds such indices (the Python list holds the objects
  themselves, aliased by the callers that received them from `add_request`).
- Machine-level byte strings are `List Nat` (each element a byte value).
- A Python exception escaping a function is an `Except`/`Option` error
  value; the catch-all `except Exception` clauses of the source are
  modelled by the corresponding branch.
- `pickle.dumps` / `pickle.loads` are external-library collaborators and
  are taken as parameters (`dumps`, `loads`) of the codec functions.
-/

namespace SocketNodes

/-- Python exceptions that the modelled code can raise. -/
inductive PyErr
  | indexError
  | typeError
  | valueError
deriving DecidableEq, Repr

/-- `RequestStatus` enum of libserver.py. -/
inductive RequestStatus
  | InProgress
  | Done
  | Disconnected
deriving DecidableEq, Repr

/-- The `_result` slot of a `RequestClass`: holds the `NoResult` marker class
until a result is acquired. -/
inductive ResultSlot (α : Type)
  | NoResult
  | val (v : α)
deriving DecidableEq, Repr

/-- `RequestClass` of libserver.py: request payload, status, result slot. -/
structure RequestClass (α : Type) where
  request : α
  status : RequestStatus
  _result : ResultSlot α
deriving DecidableEq, Repr

/-- `RequestClass.__init__`: status `InProgress`, result slot `NoResult`. -/
def mkRequestClass {α : Type} (d : α) : RequestClass α :=
  { request := d, status := RequestStatus.InProgress, _result := ResultSlot.NoResult }

/-- `RequestClass.result()` spins until the status leaves `InProgress` and then
returns the stored `_result`. In a static state the call returns the slot
when resolved and spins forever (`none`) otherwise. -/
def RequestClass.resultSpin {α : Type} (r : RequestClass α) : Option (ResultSlot α) :=
  if r.status = RequestStatus.Done then some r._result
  else if r.status = RequestStatus.Disconnected then some r._result
  else none

/-- `ConnectedNode` of libserver.py: the FIFO queue `requests` of outstanding
`RequestClass` objects, modelled as heap indices (the socket handle and the
logging-only `ids` counter are omitted). -/
structure ConnectedNode where
  requests : List Nat
deriving DecidableEq, Repr

/-- `ConnectedNode.is_busy`: `bool(self.requests)`. -/
def ConnectedNode.is_busy (n : ConnectedNode) : Bool :=
  !n.requests.isEmpty

/-- Replace the element at index `i` by `f` of it; other positions and the
length are unchanged (a Python in-place mutation `l[i].f()` / `l[i] = f(l[i])`). -/
def modifyAt {α : Type} (f : α → α) : Nat → List α → List α
  | _, [] => []
  | 0, a :: l => f a :: l
  | n + 1, a :: l => a :: modifyAt f n l

/-- Python list indexing `l[i]` for a non-negative index: raises `IndexError`
when out of range. -/
def pyGet {α : Type} (l : List α) (i : Nat) : Except PyErr α :=
  match l[i]? with
  | some a => Except.ok a
  | none => Except.error PyErr.indexError

/-- Server state: liveness flag, the list of connected nodes, the heap of all
`RequestClass` objects ever created (Python references into it), and the log
of `(node index, payload)` pairs handed to `send_raw`. -/
structure Server (α : Type) where
  active : Bool
  nodes : List ConnectedNode
  heap : List (RequestClass α)
  sent : List (Nat × α)
deriving DecidableEq, Repr

/-- `Server.request_to_one_node`: `self.nodes[node_id].add_request(request_data)`
(append a fresh `InProgress` future to the tail of that node's queue) followed
by `send_raw` of the payload on that node's socket; returns the new future.
Out-of-range `node_id` raises `IndexError` at `self.nodes[node_id]`. -/
def Server.request_to_one_node {α : Type} (s : Server α) (d : α) (i : Nat) :
    Except PyErr (Nat × Server α) :=
  if i < s.nodes.length then
    let fid := s.heap.length
    Except.ok (fid,
      { s with
        heap := s.heap ++ [mkRequestClass d],
        nodes := modifyAt (fun n => { requests := n.requests ++ [fid] }) i s.nodes,
        sent := s.sent ++ [(i, d)] })
  else Except.error PyErr.indexError

/-- `Server.request_to_multiple_nodes`: the list comprehension
`[self.request_to_one_node(request_data, node_id) for node_id in node_indices]`. -/
def Server.request_to_multiple_nodes {α : Type} (s : Server α) (d : α) :
    List Nat → Except PyErr (List Nat × Server α)
  | [] => Except.ok ([], s)
  | i :: rest =>
    match s.request_to_one_node d i with
    | Except.error e => Except.error e
    | Except.ok (fid, s1) =>
      match s1.request_to_multiple_nodes d rest with
      | Except.error e => Except.error e
      | Except.ok (fids, s2) => Except.ok (fid :: fids, s2)

/-- The dynamic type of the `node_id` argument of `Server.request`.
`int` and `list` are the two types the code dispatches on; tuples and
strings stand for every other type a caller might pass. -/
inductive NodeIdArg
  | int (i : Nat)
  | list (l : List Nat)
  | tuple (l : List Nat)
  | str (s : String)
deriving DecidableEq, Repr

/-- The value returned by `Server.request`: one future, a list of futures, or
Python's implicit `None` when no branch matched. -/
inductive ReqResult
  | one (fid : Nat)
  | many (fids : List Nat)
  | retNone
deriving DecidableEq, Repr

/-- `Server.request`: dispatch on `isinstance(node_id, int)` /
`isinstance(node_id, list)`; any other type falls off the end of the function
and returns `None`. -/
def Server.request {α : Type} (s : Server α) (d : α) :
    NodeIdArg → Except PyErr (ReqResult × Server α)
  | NodeIdArg.int i =>
    match s.request_to_one_node d i with
    | Except.error e => Except.error e
    | Except.ok (fid, s1) => Except.ok (ReqResult.one fid, s1)
  | NodeIdArg.list l =>
    match s.request_to_multiple_nodes d l with
    | Except.error e => Except.error e
    | Except.ok (fids, s1) => Except.ok (ReqResult.many fids, s1)
  | NodeIdArg.tuple _ => Except.ok (ReqResult.retNone, s)
  | NodeIdArg.str _ => Except.ok (ReqResult.retNone, s)

/-- Mark one `RequestClass` as completed with result `v`
(`Request._result = result; Request.status = RequestStatus.Done`). -/
def doneReq {α : Type} (v : α) (r : RequestClass α) : RequestClass α :=
  { r with status := RequestStatus.Done, _result := ResultSlot.val v }

/-- `Server.handle_income` / `ConnectedNode.finish_request`: pop the head of
node `i`'s queue (`self.requests.pop(0)`, `IndexError` when empty) and set the
arriving value as that future's result with status `Done`. -/
def Server.handle_income {α : Type} (s : Server α) (v : α) (i : Nat) :
    Except PyErr (Server α) :=
  match pyGet s.nodes i with
  | Except.error e => Except.error e
  | Except.ok node =>
    match node.requests with
    | [] => Except.error PyErr.indexError
    | fid :: rest =>
      Except.ok
        { s with
          heap := modifyAt (doneReq v) fid s.heap,
          nodes := modifyAt (fun _ => { requests := rest }) i s.nodes }

/-- Mark one `RequestClass` as disconnected
(`Request.status = RequestStatus.Disconnected; Request._result = NoResult`). -/
def discReq {α : Type} (r : RequestClass α) : RequestClass α :=
  { r with status := RequestStatus.Disconnected, _result := ResultSlot.NoResult }

/-- `ConnectedNode.__del__`: drain the queue, force-resolving every still
queued request to `Disconnected` with `NoResult`. Acts on the heap. -/
def delNode {α : Type} (heap : List (RequestClass α)) (q : List Nat) :
    List (RequestClass α) :=
  q.foldl (fun h fid => modifyAt discReq fid h) heap

/-- `Server.shutdown`: set `active = False`, rebind `self.nodes = []`; every
dropped `ConnectedNode`'s finalizer `__del__` drains its queue (CPython
reference counting: the records have no other owner). The listening-socket
close is not modelled. -/
def Server.shutdown {α : Type} (s : Server α) : Server α :=
  { s with
    active := false,
    heap := s.nodes.foldl (fun h n => delNode h n.requests) s.heap,
    nodes := [] }

/-- The runtime value passed as `node_id` to `Server.handle_disconnection`:
the EOF path passes the integer index from `_get_node_idx_by_socket`, while
the `exception_sockets` branch of `Server.listen` passes the socket object
itself. -/
inductive PyKey
  | idx (i : Nat)
  | sock (sid : Nat)
deriving DecidableEq, Repr

/-- `Server.handle_disconnection`: `del self.nodes[node_id]` — deleting by an
integer index removes the record (whose finalizer drains its queue to
`Disconnected`); indexing a Python list by a socket object raises
`TypeError`; then, if no nodes remain and `stop_if_no_one_connected` (default
`True`), the server shuts down. -/
def Server.handle_disconnection {α : Type} (s : Server α) :
    PyKey → Except PyErr (Server α)
  | PyKey.sock _ => Except.error PyErr.typeError
  | PyKey.idx i =>
    if h : i < s.nodes.length then
      let s1 : Server α :=
        { s with
          heap := delNode s.heap (s.nodes.get ⟨i, h⟩).requests,
          nodes := s.nodes.eraseIdx i }
      if s1.nodes.length = 0 then Except.ok s1.shutdown else Except.ok s1
    else Except.error PyErr.indexError

/-- One server-level event: an outbound request, an inbound response routed
through `handle_income`, a disconnection (by index from the EOF path or by
socket from the exception path of `listen`), or `shutdown`. These are the
only operations that mutate the queues and the futures. -/
inductive Op (α : Type)
  | req (d : α) (t : NodeIdArg)
  | income (v : α) (i : Nat)
  | disc (k : PyKey)
  | shut
deriving DecidableEq, Repr

/-- Apply one event to the server state. -/
def Server.applyOp {α : Type} (s : Server α) : Op α → Except PyErr (Server α)
  | Op.req d t =>
    match s.request d t with
    | Except.error e => Except.error e
    | Except.ok (_, s1) => Except.ok s1
  | Op.income v i => s.handle_income v i
  | Op.disc k => s.handle_disconnection k
  | Op.shut => Except.ok s.shutdown

/- ——— Wire framing codec (`Server.send_raw` / `Server.recv_raw`) ——— -/

/-- Decimal digits of `n`, least significant first (empty for `0`). -/
def toDigitsLE : Nat → List Nat
  | 0 => []
  | n + 1 => ((n + 1) % 10) :: toDigitsLE ((n + 1) / 10)
decreasing_by exact Nat.div_lt_self (Nat.succ_pos n) (by omega)

/-- Decimal digits of `n`, most significant first, as Python's `str(n)`
orders them. -/
def decDigits (n : Nat) : List Nat :=
  if n = 0 then [0] else (toDigitsLE n).reverse

/-- Byte value of the ASCII character of a single decimal digit. -/
def digitCode (d : Nat) : Nat := 48 + d

/-- ASCII space. -/
def spaceCode : Nat := 32

/-- The wire header `bytes(f"{n:<10}", 'utf-8')`: the decimal digits of `n`
left-justified in a field of (at least) 10 bytes, padded with spaces. -/
def headerBytes (n : Nat) : List Nat :=
  (decDigits n).map digitCode ++ List.replicate (10 - (decDigits n).length) spaceCode

/-- `Server.send_raw` body: `msg = pickle.dumps(data)` , prepend the 10-byte
header, send. If anything in the `try` block raises (in practice
`pickle.dumps` on an unpicklable object), the `except` clause logs the
exception and re-raises it to the caller — nothing is sent in that case. -/
def send_raw_bytes {α : Type} (dumps : α → Except String (List Nat)) (d : α) :
    Except String (List Nat) :=
  match dumps d with
  | Except.error e => Except.error e
  | Except.ok m => Except.ok (headerBytes m.length ++ m)

/-- Whitespace byte, as Python's `str.strip` and `int(str)` treat it. -/
def isSpaceByte (c : Nat) : Bool :=
  c = 32 || c = 9 || c = 10 || c = 11 || c = 12 || c = 13

/-- Python `str.strip()`: drop whitespace from both ends. -/
def pyStrip (cs : List Nat) : List Nat :=
  ((cs.dropWhile isSpaceByte).reverse.dropWhile isSpaceByte).reverse

/-- Digits-only parse of a byte string: `some n` when the string is a
non-empty run of ASCII digits. -/
def parseDigits (cs : List Nat) : Option Nat :=
  if cs.isEmpty then none
  else cs.foldlM (fun acc c =>
    if 48 ≤ c ∧ c ≤ 57 then some (acc * 10 + (c - 48)) else none) 0

/-- `int(message_header.decode('utf-8').strip())`: decoding demands the
header be ASCII here (the genuine header always is; a non-ASCII or otherwise
malformed header raises and is caught the same way), `int` accepts an
optional `+` sign and digits. A leading `-` is rejected: in Python it parses
to a negative length but `socket.recv` then raises `ValueError`, which the
same `except` clause catches, so the observable outcome is identical. -/
def parseHeaderInt (hdr : List Nat) : Option Nat :=
  if hdr.all (fun c => c < 128) then
    let cs := pyStrip hdr
    if cs.head? = some 43 then parseDigits cs.tail else parseDigits cs
  else none

/-- `socket.recv(n)` on a modelled byte stream with all data available:
return up to `n` bytes and the rest of the stream. -/
def recvStream (n : Nat) (s : List Nat) : List Nat × List Nat :=
  (s.take n, s.drop n)

/-- `Server.recv_raw` body over a byte stream: read the 10-byte header; a
zero-length read returns `False` (modelled `none`); otherwise parse the
length, read that many payload bytes and unpickle them. Any exception inside
the `try` (malformed header, failing `loads`) is caught, logged with
`logger.exception`, and the function returns the same `False`. Returns the
result together with the unread rest of the stream. -/
def recv_raw {α : Type} (loads : List Nat → Option α) (s : List Nat) :
    Option α × List Nat :=
  let (hdr, s1) := recvStream 10 s
  if hdr.length = 0 then (none, s1)
  else
    match parseHeaderInt hdr with
    | none => (none, s1)
    | some len =>
      let (body, s2) := recvStream len s1
      match loads body with
      | none => (none, s2)
      | some v => (some v, s2)

/- ——— Worker runtime (`BaseNode` of libnode.py) ——— -/

/-- A Python exception object, carried as a value. -/
structure Exc where
  msg : String
deriving DecidableEq, Repr

/-- Values handled by the worker runtime: request/response payloads, the
`'Invalid request'` string, or an exception object sent as a payload. -/
inductive NVal
  | str (s : String)
  | num (n : Nat)
  | exc (e : Exc)
deriving DecidableEq, Repr

/-- `BaseNode.handle_request`: verify, execute when verification passes
(`result = self.execute(request)` stands OUTSIDE any `try`), else use the
string `'Invalid request'`; then `try: self.send_raw(result)` and, when
sending raises (usually an unpicklable result), log and
`self.send_raw(e)` instead. `verify`/`execute` are the pluggable executor
(parameters which may raise); `send` returns `some e` when `send_raw`
raises. The result is the list of payloads actually handed to `send_raw`
successfully, paired with the exception escaping `handle_request`, if any. -/
def handle_request (verify : NVal → Except Exc Bool)
    (execute : NVal → Except Exc NVal)
    (send : NVal → Option Exc) (req : NVal) : List NVal × Option Exc :=
  match verify req with
  | Except.error e => ([], some e)
  | Except.ok ok =>
    match (if ok then execute req else Except.ok (NVal.str "Invalid request")) with
    | Except.error e => ([], some e)
    | Except.ok result =>
      match send result with
      | none => ([result], none)
      | some e =>
        match send (NVal.exc e) with
        | none => ([NVal.exc e], none)
        | some e2 => ([], some e2)

/-- `ExecutorLocalScopeOnly.execute_item` of libexecutor.py: evaluate the
expression and return the result; any exception raised by the evaluation is
caught and returned as the result value. `evalFn` is the `eval` call. -/
def execute_item (evalFn : NVal → Except Exc NVal) (expr : NVal) :
    Except Exc NVal :=
  match evalFn expr with
  | Except.ok v => Except.ok v
  | Except.error e => Except.ok (NVal.exc e)

/-- Exit condition of the spin loop of `Server.wait_node`:
`while self.nodes[node_id].is_busy()==False: pass` — in a static state the
call returns exactly when the guard `is_busy()==False` is false, that is when
`is_busy()` is `True`. -/
def wait_node_guard (n : ConnectedNode) : Bool :=
  n.is_busy == false

/-- Exit condition of the spin loop of `Server.wait_all_nodes`:
`while any([node.is_busy() for node in self.nodes]): pass` — the call returns
exactly when the guard is false. -/
def wait_all_guard (ns : List ConnectedNode) : Bool :=
  ns.any (fun n => n.is_busy)

/- ——— Invariant and auxiliary notions for the theorems ——— -/

/-- All request ids queued anywhere on the server, in queue order. -/
def queuedIds {α : Type} (s : Server α) : List Nat :=
  (s.nodes.map ConnectedNode.requests).flatten

/-- Status of the future at heap index `fid`. -/
def statusAt {α : Type} (s : Server α) (fid : Nat) : Option RequestStatus :=
  (s.heap[fid]?).map RequestClass.status

/-- Well-formedness: each `RequestClass` object occurs at most once across
all queues, and everything still queued is `InProgress`. This holds for every
state reachable by the server's operations from the initial empty state. -/
def WF {α : Type} (s : Server α) : Prop :=
  (queuedIds s).Nodup ∧
    ∀ fid ∈ queuedIds s, statusAt s fid = some RequestStatus.InProgress

instance {α : Type} (s : Server α) : Decidable (WF s) := by
  unfold WF; infer_instance

/-- One admissible evolution of a single future: unchanged, or resolved from
`InProgress` to `Done` with some value, or to `Disconnected`. -/
def futureStep {α : Type} (r r' : RequestClass α) : Prop :=
  r' = r ∨
    (r.status = RequestStatus.InProgress ∧
      ((∃ v, r' = doneReq v r) ∨ r' = discReq r))

/-- Apply a sequence of server events left to right, stopping at the first
raised exception. -/
def Server.applyOps {α : Type} (s : Server α) : List (Op α) → Except PyErr (Server α)
  | [] => Except.ok s
  | op :: ops =>
    match s.applyOp op with
    | Except.error e => Except.error e
    | Except.ok s1 => s1.applyOps ops

/-- The events issuing the payloads `ds`, in order, to node `i`
(`Server.request` with the integer index). -/
def issueOps {α : Type} (i : Nat) (ds : List α) : List (Op α) :=
  ds.map (fun d => Op.req d (NodeIdArg.int i))

/-- The events delivering the worker's responses `vs`, in order, from node
`i` (`Server.listen` routing each inbound frame through `handle_income`). -/
def respondOps {α : Type} (i : Nat) (vs : List α) : List (Op α) :=
  vs.map (fun v => Op.income v i)

/- ——— List helper lemmas ——— -/

theorem modifyAt_length {α : Type} (f : α → α) :
    ∀ (i : Nat) (l : List α), (modifyAt f i l).length = l.length
  | i, [] => by cases i <;> rfl
  | 0, _ :: _ => rfl
  | n + 1, a :: l => by
    simp [modifyAt, modifyAt_length f n l]

theorem getElem?_modifyAt_self {α : Type} (f : α → α) :
    ∀ (i : Nat) (l : List α), (modifyAt f i l)[i]? = (l[i]?).map f
  | _, [] => by simp [modifyAt]
  | 0, a :: l => by simp [modifyAt]
  | n + 1, a :: l => by
    simp [modifyAt, getElem?_modifyAt_self f n l]

theorem getElem?_modifyAt_ne {α : Type} (f : α → α) :
    ∀ (i j : Nat) (l : List α), j ≠ i → (modifyAt f i l)[j]? = l[j]?
  | _, _, [], _ => by simp [modifyAt]
  | 0, 0, a :: l, h => absurd rfl h
  | 0, j + 1, a :: l, _ => by simp [modifyAt]
  | i + 1, 0, a :: l, _ => by simp [modifyAt]
  | i + 1, j + 1, a :: l, h => by
    simp only [modifyAt, List.getElem?_cons_succ]
    exact getElem?_modifyAt_ne f i j l (by omega)

theorem modifyAt_eq_take_cons_drop {α : Type} (f : α → α) :
    ∀ (i : Nat) (l : List α) (h : i < l.length),
      modifyAt f i l = l.take i ++ f l[i] :: l.drop (i + 1)
  | 0, a :: l, _ => by simp [modifyAt]
  | n + 1, a :: l, h => by
    simp only [modifyAt, List.take_succ_cons, List.getElem_cons_succ,
      List.drop_succ_cons, List.cons_append]
    exact congrArg _ (modifyAt_eq_take_cons_drop f n l (by simpa using h))

theorem eq_take_cons_drop {α : Type} (i : Nat) (l : List α) (h : i < l.length) :
    l = l.take i ++ l[i] :: l.drop (i + 1) := by
  conv_lhs => rw [← List.take_append_drop i l]
  rw [List.drop_eq_getElem_cons h]

theorem discReq_idem {α : Type} (r : RequestClass α) :
    discReq (discReq r) = discReq r := rfl

theorem map_discReq_discReq {α : Type} (o : Option (RequestClass α)) :
    (o.map discReq).map discReq = o.map discReq := by
  cases o <;> rfl

theorem delNode_getElem? {α : Type} (fid : Nat) :
    ∀ (q : List Nat) (heap : List (RequestClass α)),
      (delNode heap q)[fid]? =
        if fid ∈ q then (heap[fid]?).map discReq else heap[fid]?
  | [], heap => by simp [delNode]
  | a :: q, heap => by
    have step : delNode heap (a :: q) = delNode (modifyAt discReq a heap) q := rfl
    rw [step, delNode_getElem? fid q]
    by_cases hfa : fid = a
    · subst hfa
      rw [getElem?_modifyAt_self]
      by_cases hq : fid ∈ q
      · rw [if_pos hq, if_pos (List.mem_cons_self fid q), map_discReq_discReq]
      · rw [if_neg hq, if_pos (List.mem_cons_self fid q)]
    · rw [getElem?_modifyAt_ne discReq a fid heap hfa]
      by_cases hq : fid ∈ q
      · rw [if_pos hq, if_pos (List.mem_cons_of_mem a hq)]
      · rw [if_neg hq, if_neg (fun h => ((List.mem_cons.mp h).elim hfa hq))]

theorem delNode_length {α : Type} :
    ∀ (q : List Nat) (heap : List (RequestClass α)),
      (delNode heap q).length = heap.length
  | [], _ => rfl
  | a :: q, heap => by
    have step : delNode heap (a :: q) = delNode (modifyAt discReq a heap) q := rfl
    rw [step, delNode_length q, modifyAt_length]

/-- Heap contents after the drain fold of `Server.shutdown`. -/
theorem drainAll_getElem? {α : Type} (fid : Nat) :
    ∀ (ns : List ConnectedNode) (heap : List (RequestClass α)),
      (ns.foldl (fun h n => delNode h n.requests) heap)[fid]? =
        if fid ∈ (ns.map ConnectedNode.requests).flatten then
          (heap[fid]?).map discReq
        else heap[fid]?
  | [], heap => by simp
  | n :: ns, heap => by
    have step : ((n :: ns).foldl (fun h nd => delNode h nd.requests) heap)
        = ns.foldl (fun h nd => delNode h nd.requests) (delNode heap n.requests) := rfl
    rw [step, drainAll_getElem? fid ns, delNode_getElem? fid n.requests heap]
    simp only [List.map_cons, List.flatten_cons, List.mem_append]
    by_cases hn : fid ∈ n.requests
    · by_cases hns : fid ∈ (ns.map ConnectedNode.requests).flatten
      · rw [if_pos hn, if_pos hns, if_pos (Or.inl hn), map_discReq_discReq]
      · rw [if_pos hn, if_neg hns, if_pos (Or.inl hn)]
    · by_cases hns : fid ∈ (ns.map ConnectedNode.requests).flatten
      · rw [if_neg hn, if_pos hns, if_pos (Or.inr hns)]
      · rw [if_neg hn, if_neg hns, if_neg (fun h => h.elim hn hns)]

/-- Decomposition of the joined queues around the node at index `i`. -/
theorem flatten_map_decomp (ns : List ConnectedNode) (i : Nat) (h : i < ns.length) :
    (ns.map ConnectedNode.requests).flatten =
      ((ns.take i).map ConnectedNode.requests).flatten ++ ns[i].requests ++
        ((ns.drop (i + 1)).map ConnectedNode.requests).flatten := by
  conv_lhs => rw [eq_take_cons_drop i ns h]
  rw [List.map_append, List.map_cons, List.flatten_append, List.flatten_cons]
  exact (List.append_assoc _ _ _).symm

/-- Decomposition of the joined queues after modifying the node at index `i`. -/
theorem flatten_map_modifyAt_decomp (f : ConnectedNode → ConnectedNode)
    (ns : List ConnectedNode) (i : Nat) (h : i < ns.length) :
    ((modifyAt f i ns).map ConnectedNode.requests).flatten =
      ((ns.take i).map ConnectedNode.requests).flatten ++ (f ns[i]).requests ++
        ((ns.drop (i + 1)).map ConnectedNode.requests).flatten := by
  rw [modifyAt_eq_take_cons_drop f i ns h]
  rw [List.map_append, List.map_cons, List.flatten_append, List.flatten_cons]
  exact (List.append_assoc _ _ _).symm

/-- An element of the two outer parts of a three-part concatenation without
duplicates does not occur in the middle part. -/
theorem nodup_middle_not_mem {A q B : List Nat} (h : (A ++ q ++ B).Nodup)
    {x : Nat} (hx : x ∈ A ++ B) : x ∉ q := by
  rw [List.append_assoc] at h
  rcases List.nodup_append.mp h with ⟨-, h2, hdisj⟩
  rcases List.nodup_append.mp h2 with ⟨-, -, hdisjqB⟩
  intro hxq
  rcases List.mem_append.mp hx with hA | hB
  · exact hdisj hA (List.mem_append.mpr (Or.inl hxq))
  · exact hdisjqB hxq hB

/-- Characterization of a successful `request_to_one_node`. -/
theorem request_to_one_node_spec {α : Type} {s s' : Server α} {d : α} {i fid : Nat}
    (h : s.request_to_one_node d i = Except.ok (fid, s')) :
    i < s.nodes.length ∧ fid = s.heap.length ∧
      s'.heap = s.heap ++ [mkRequestClass d] ∧
      s'.nodes = modifyAt (fun n => { requests := n.requests ++ [s.heap.length] }) i s.nodes ∧
      s'.active = s.active := by
  unfold Server.request_to_one_node at h
  by_cases hi : i < s.nodes.length
  · rw [if_pos hi] at h
    simp only [Except.ok.injEq, Prod.mk.injEq] at h
    obtain ⟨hfid, hs⟩ := h
    subst hfid; subst hs
    exact ⟨hi, rfl, rfl, rfl, rfl⟩
  · rw [if_neg hi] at h
    exact absurd h (by simp)

/-- Characterization of a successful `handle_income`. -/
theorem handle_income_spec {α : Type} {s s' : Server α} {v : α} {i : Nat}
    (h : s.handle_income v i = Except.ok s') :
    ∃ (hi : i < s.nodes.length) (fid : Nat) (rest : List Nat),
      s.nodes[i].requests = fid :: rest ∧
      s'.heap = modifyAt (doneReq v) fid s.heap ∧
      s'.nodes = modifyAt (fun _ => { requests := rest }) i s.nodes ∧
      s'.active = s.active := by
  unfold Server.handle_income pyGet at h
  cases hn : s.nodes[i]? with
  | none =>
    rw [hn] at h
    exact absurd h (by simp)
  | some node =>
    rw [hn] at h
    dsimp only at h
    have hi : i < s.nodes.length := (List.getElem?_eq_some_iff.mp hn).1
    have hnode : s.nodes[i] = node := (List.getElem?_eq_some_iff.mp hn).2
    cases hq : node.requests with
    | nil => rw [hq] at h; exact absurd h (by simp)
    | cons fid rest =>
      rw [hq] at h
      simp only [Except.ok.injEq] at h
      subst h
      exact ⟨hi, fid, rest, by rw [hnode, hq], rfl, rfl, rfl⟩

/-- Characterization of a successful `handle_disconnection` by integer index:
whether or not the empty-collection shutdown fires, the heap is the drained
heap and the node is removed. -/
theorem handle_disconnection_idx_spec {α : Type} {s s' : Server α} {i : Nat}
    (h : s.handle_disconnection (PyKey.idx i) = Except.ok s') :
    ∃ _ : i < s.nodes.length,
      s'.heap = delNode s.heap s.nodes[i].requests ∧
      s'.nodes = s.nodes.eraseIdx i ∧
      s'.sent = s.sent := by
  simp only [Server.handle_disconnection] at h
  by_cases hi : i < s.nodes.length
  · rw [dif_pos hi] at h
    by_cases hz : (s.nodes.eraseIdx i).length = 0
    · rw [if_pos hz] at h
      simp only [Except.ok.injEq] at h
      subst h
      refine ⟨hi, ?_, ?_, rfl⟩
      · show (Server.shutdown _).heap = _
        unfold Server.shutdown
        have : (s.nodes.eraseIdx i) = [] := List.length_eq_zero.mp hz
        simp [this]
      · show (Server.shutdown _).nodes = _
        unfold Server.shutdown
        have : (s.nodes.eraseIdx i) = [] := List.length_eq_zero.mp hz
        simp [this]
    · rw [if_neg hz] at h
      simp only [Except.ok.injEq] at h
      subst h
      exact ⟨hi, rfl, rfl, rfl⟩
  · rw [dif_neg hi] at h
    exact absurd h (by simp)

/-- `handle_disconnection` called with a socket object (the
`exception_sockets` branch of `Server.listen`) always raises `TypeError` at
`del self.nodes[node_id]`: nothing is removed and nothing is resolved. -/
theorem handle_disconnection_sock_spec {α : Type} (s : Server α) (sid : Nat) :
    s.handle_disconnection (PyKey.sock sid) = Except.error PyErr.typeError := rfl

theorem flatten_map_eraseIdx_decomp (ns : List ConnectedNode) (i : Nat) :
    ((ns.eraseIdx i).map ConnectedNode.requests).flatten =
      ((ns.take i).map ConnectedNode.requests).flatten ++
        ((ns.drop (i + 1)).map ConnectedNode.requests).flatten := by
  rw [List.eraseIdx_eq_take_drop_succ, List.map_append, List.flatten_append]

theorem perm_insert_middle (A q B : List Nat) (x : Nat) :
    List.Perm (A ++ (q ++ [x]) ++ B) (x :: (A ++ q ++ B)) := by
  have h1 : A ++ (q ++ [x]) ++ B = (A ++ q) ++ (x :: B) := by
    simp [List.append_assoc]
  rw [h1]
  exact List.perm_middle

theorem perm_pop_middle (A rest B : List Nat) (x : Nat) :
    List.Perm (A ++ (x :: rest) ++ B) (x :: (A ++ rest ++ B)) := by
  have h1 : A ++ (x :: rest) ++ B = A ++ x :: (rest ++ B) := by
    simp [List.append_assoc]
  have h2 : x :: (A ++ rest ++ B) = x :: (A ++ (rest ++ B)) := by
    simp [List.append_assoc]
  rw [h1, h2]
  exact List.perm_middle

theorem statusAt_of_getElem? {α : Type} {s : Server α} {fid : Nat}
    {r : RequestClass α} (h : s.heap[fid]? = some r) :
    statusAt s fid = some r.status := by
  unfold statusAt; rw [h]; rfl

theorem lt_heap_length_of_statusAt {α : Type} {s : Server α} {fid : Nat}
    (h : statusAt s fid = some RequestStatus.InProgress) :
    fid < s.heap.length := by
  unfold statusAt at h
  cases hh : s.heap[fid]? with
  | none => rw [hh] at h; exact absurd h (by simp)
  | some r => exact (List.getElem?_eq_some_iff.mp hh).1

theorem mem_queuedIds_of_mem_queue {α : Type} {s : Server α} {i : Nat}
    (hi : i < s.nodes.length) {x : Nat} (hx : x ∈ s.nodes[i].requests) :
    x ∈ queuedIds s := by
  rw [queuedIds, flatten_map_decomp s.nodes i hi]
  exact List.mem_append.mpr (Or.inl (List.mem_append.mpr (Or.inr hx)))

/-- `request_to_one_node` preserves well-formedness and never touches an
existing future. -/
theorem request_to_one_node_preserves {α : Type} {s s' : Server α} {d : α}
    {i fid : Nat} (hwf : WF s) (h : s.request_to_one_node d i = Except.ok (fid, s')) :
    WF s' ∧ s.heap.length ≤ s'.heap.length ∧
      ∀ f2, f2 < s.heap.length → s'.heap[f2]? = s.heap[f2]? := by
  obtain ⟨hi, hfid, hheap, hnodes, -⟩ := request_to_one_node_spec h
  have hLlen : s'.heap.length = s.heap.length + 1 := by
    rw [hheap]; simp
  have hold : ∀ f2, f2 < s.heap.length → s'.heap[f2]? = s.heap[f2]? := by
    intro f2 hf2
    rw [hheap, List.getElem?_append_left hf2]
  have hperm : List.Perm (queuedIds s') (s.heap.length :: queuedIds s) := by
    rw [queuedIds, hnodes, flatten_map_modifyAt_decomp _ _ _ hi,
      queuedIds, flatten_map_decomp _ _ hi]
    exact perm_insert_middle _ _ _ _
  have hnotmem : s.heap.length ∉ queuedIds s := by
    intro hmem
    exact absurd (lt_heap_length_of_statusAt (hwf.2 _ hmem)) (lt_irrefl _)
  constructor
  · constructor
    · exact hperm.nodup_iff.mpr (List.nodup_cons.mpr ⟨hnotmem, hwf.1⟩)
    · intro f2 hf2
      rcases List.mem_cons.mp (hperm.mem_iff.mp hf2) with hnew | hold2
      · subst hnew
        have : s'.heap[s.heap.length]? = some (mkRequestClass d) := by
          rw [hheap, List.getElem?_append_right (Nat.le_refl _)]
          simp
        rw [statusAt_of_getElem? this]
        rfl
      · have hlt := lt_heap_length_of_statusAt (hwf.2 _ hold2)
        have heq : statusAt s' f2 = statusAt s f2 := by
          unfold statusAt; rw [hold f2 hlt]
        rw [heq]; exact hwf.2 _ hold2
  · exact ⟨by omega, hold⟩

/-- `request_to_multiple_nodes` preserves well-formedness and never touches
an existing future. -/
theorem request_to_multiple_nodes_preserves {α : Type} {d : α} :
    ∀ (l : List Nat) {s s' : Server α} {fids : List Nat}, WF s →
      s.request_to_multiple_nodes d l = Except.ok (fids, s') →
      WF s' ∧ s.heap.length ≤ s'.heap.length ∧
        ∀ f2, f2 < s.heap.length → s'.heap[f2]? = s.heap[f2]?
  | [], s, s', fids, hwf, h => by
    unfold Server.request_to_multiple_nodes at h
    simp only [Except.ok.injEq, Prod.mk.injEq] at h
    rw [← h.2]
    exact ⟨hwf, Nat.le_refl _, fun _ _ => rfl⟩
  | i :: rest, s, s', fids, hwf, h => by
    unfold Server.request_to_multiple_nodes at h
    cases h1 : s.request_to_one_node d i with
    | error e => rw [h1] at h; exact absurd h (by simp)
    | ok p =>
      obtain ⟨fid1, s1⟩ := p
      rw [h1] at h
      dsimp only at h
      cases h2 : s1.request_to_multiple_nodes d rest with
      | error e => rw [h2] at h; exact absurd h (by simp)
      | ok q =>
        obtain ⟨fids2, s2⟩ := q
        rw [h2] at h
        simp only [Except.ok.injEq, Prod.mk.injEq] at h
        obtain ⟨-, hs2⟩ := h
        subst hs2
        obtain ⟨hwf1, hle1, hpres1⟩ := request_to_one_node_preserves hwf h1
        obtain ⟨hwf2, hle2, hpres2⟩ := request_to_multiple_nodes_preserves rest hwf1 h2
        refine ⟨hwf2, by omega, fun f2 hf2 => ?_⟩
        rw [hpres2 f2 (by omega), hpres1 f2 hf2]

/-- `Server.request` preserves well-formedness and never touches an existing
future. -/
theorem request_preserves {α : Type} {s s' : Server α} {d : α} {t : NodeIdArg}
    {res : ReqResult} (hwf : WF s) (h : s.request d t = Except.ok (res, s')) :
    WF s' ∧ s.heap.length ≤ s'.heap.length ∧
      ∀ f2, f2 < s.heap.length → s'.heap[f2]? = s.heap[f2]? := by
  cases t with
  | int i =>
    unfold Server.request at h
    dsimp only at h
    cases h1 : s.request_to_one_node d i with
    | error e => rw [h1] at h; exact absurd h (by simp)
    | ok p =>
      obtain ⟨fid1, s1⟩ := p
      rw [h1] at h
      dsimp only at h
      simp only [Except.ok.injEq, Prod.mk.injEq] at h
      rw [← h.2]
      exact request_to_one_node_preserves hwf h1
  | list l =>
    unfold Server.request at h
    dsimp only at h
    cases h1 : s.request_to_multiple_nodes d l with
    | error e => rw [h1] at h; exact absurd h (by simp)
    | ok p =>
      obtain ⟨fids, s1⟩ := p
      rw [h1] at h
      dsimp only at h
      simp only [Except.ok.injEq, Prod.mk.injEq] at h
      rw [← h.2]
      exact request_to_multiple_nodes_preserves l hwf h1
  | tuple l =>
    unfold Server.request at h
    dsimp only at h
    simp only [Except.ok.injEq, Prod.mk.injEq] at h
    rw [← h.2]
    exact ⟨hwf, Nat.le_refl _, fun _ _ => rfl⟩
  | str str0 =>
    unfold Server.request at h
    dsimp only at h
    simp only [Except.ok.injEq, Prod.mk.injEq] at h
    rw [← h.2]
    exact ⟨hwf, Nat.le_refl _, fun _ _ => rfl⟩

/-- `handle_income` preserves well-formedness; the popped head future moves
from `InProgress` to `Done` with the arriving value, every other future is
untouched. -/
theorem handle_income_preserves {α : Type} {s s' : Server α} {v : α} {i : Nat}
    (hwf : WF s) (h : s.handle_income v i = Except.ok s') :
    WF s' ∧ ∀ (fid : Nat) (r : RequestClass α), s.heap[fid]? = some r →
      ∃ r' : RequestClass α, s'.heap[fid]? = some r' ∧ futureStep r r' := by
  obtain ⟨hi, fid0, rest, hq, hheap, hnodes, -⟩ := handle_income_spec h
  have hmem0 : fid0 ∈ queuedIds s :=
    mem_queuedIds_of_mem_queue hi (by rw [hq]; exact List.mem_cons_self fid0 rest)
  have hperm : List.Perm (queuedIds s) (fid0 :: queuedIds s') := by
    rw [queuedIds, flatten_map_decomp _ _ hi, hq,
      queuedIds, hnodes, flatten_map_modifyAt_decomp _ _ _ hi]
    exact perm_pop_middle _ _ _ _
  have hnodup' : (fid0 :: queuedIds s').Nodup := hperm.nodup_iff.mp hwf.1
  have hnot0 : fid0 ∉ queuedIds s' := (List.nodup_cons.mp hnodup').1
  constructor
  · constructor
    · exact (List.nodup_cons.mp hnodup').2
    · intro f2 hf2
      have hf2mem : f2 ∈ queuedIds s :=
        hperm.mem_iff.mpr (List.mem_cons_of_mem fid0 hf2)
      have hne : f2 ≠ fid0 := fun he => hnot0 (he ▸ hf2)
      have : s'.heap[f2]? = s.heap[f2]? := by
        rw [hheap]; exact getElem?_modifyAt_ne _ fid0 f2 s.heap hne
      unfold statusAt
      rw [this]
      exact hwf.2 _ hf2mem
  · intro fid r hr
    by_cases hfe : fid = fid0
    · subst hfe
      have hIP : r.status = RequestStatus.InProgress := by
        have := hwf.2 _ hmem0
        rw [statusAt_of_getElem? hr] at this
        exact Option.some.inj this
      refine ⟨doneReq v r, ?_, Or.inr ⟨hIP, Or.inl ⟨v, rfl⟩⟩⟩
      rw [hheap, getElem?_modifyAt_self, hr]
      rfl
    · refine ⟨r, ?_, Or.inl rfl⟩
      rw [hheap, getElem?_modifyAt_ne _ fid0 fid s.heap hfe, hr]

/-- `handle_disconnection` by integer index preserves well-formedness; the
dropped node's queued futures move to `Disconnected` with `NoResult`, every
other future is untouched. -/
theorem handle_disconnection_idx_preserves {α : Type} {s s' : Server α} {i : Nat}
    (hwf : WF s) (h : s.handle_disconnection (PyKey.idx i) = Except.ok s') :
    WF s' ∧ ∀ (fid : Nat) (r : RequestClass α), s.heap[fid]? = some r →
      ∃ r' : RequestClass α, s'.heap[fid]? = some r' ∧ futureStep r r' := by
  obtain ⟨hi, hheap, hnodes, -⟩ := handle_disconnection_idx_spec h
  have hqs : queuedIds s =
      ((s.nodes.take i).map ConnectedNode.requests).flatten ++
        s.nodes[i].requests ++
        ((s.nodes.drop (i + 1)).map ConnectedNode.requests).flatten := by
    rw [queuedIds, flatten_map_decomp _ _ hi]
  have hqs' : queuedIds s' =
      ((s.nodes.take i).map ConnectedNode.requests).flatten ++
        ((s.nodes.drop (i + 1)).map ConnectedNode.requests).flatten := by
    rw [queuedIds, hnodes, flatten_map_eraseIdx_decomp]
  have hsub : List.Sublist (queuedIds s') (queuedIds s) := by
    rw [hqs, hqs', List.append_assoc]
    exact List.Sublist.append_left
      (List.sublist_append_right s.nodes[i].requests _) _
  constructor
  · constructor
    · exact List.Nodup.sublist hsub hwf.1
    · intro f2 hf2
      have hf2mem : f2 ∈ queuedIds s := hsub.mem hf2
      have hnotq : f2 ∉ s.nodes[i].requests := by
        apply nodup_middle_not_mem (hqs ▸ hwf.1)
        rw [hqs'] at hf2
        exact hf2
      have : s'.heap[f2]? = s.heap[f2]? := by
        rw [hheap, delNode_getElem?, if_neg hnotq]
      unfold statusAt
      rw [this]
      exact hwf.2 _ hf2mem
  · intro fid r hr
    by_cases hfq : fid ∈ s.nodes[i].requests
    · have hmem : fid ∈ queuedIds s := mem_queuedIds_of_mem_queue hi hfq
      have hIP : r.status = RequestStatus.InProgress := by
        have := hwf.2 _ hmem
        rw [statusAt_of_getElem? hr] at this
        exact Option.some.inj this
      refine ⟨discReq r, ?_, Or.inr ⟨hIP, Or.inr rfl⟩⟩
      rw [hheap, delNode_getElem?, if_pos hfq, hr]
      rfl
    · refine ⟨r, ?_, Or.inl rfl⟩
      rw [hheap, delNode_getElem?, if_neg hfq, hr]

/-- `shutdown` empties the node collection (vacuous well-formedness); every
queued future moves to `Disconnected` with `NoResult`, every other future is
untouched. -/
theorem shutdown_preserves {α : Type} {s : Server α} (hwf : WF s) :
    WF s.shutdown ∧ ∀ (fid : Nat) (r : RequestClass α), s.heap[fid]? = some r →
      ∃ r' : RequestClass α, (s.shutdown).heap[fid]? = some r' ∧ futureStep r r' := by
  constructor
  · constructor
    · show ((List.map ConnectedNode.requests []).flatten : List Nat).Nodup
      simp
    · intro f2 hf2
      rw [queuedIds] at hf2
      simp [Server.shutdown] at hf2
  · intro fid r hr
    have hdrain : (s.shutdown).heap[fid]? =
        if fid ∈ (s.nodes.map ConnectedNode.requests).flatten then
          (s.heap[fid]?).map discReq
        else s.heap[fid]? := by
      show (s.nodes.foldl (fun h n => delNode h n.requests) s.heap)[fid]? = _
      exact drainAll_getElem? fid s.nodes s.heap
    by_cases hfq : fid ∈ (s.nodes.map ConnectedNode.requests).flatten
    · have hIP : r.status = RequestStatus.InProgress := by
        have := hwf.2 fid hfq
        rw [statusAt_of_getElem? hr] at this
        exact Option.some.inj this
      refine ⟨discReq r, ?_, Or.inr ⟨hIP, Or.inr rfl⟩⟩
      rw [hdrain, if_pos hfq, hr]
      rfl
    · refine ⟨r, ?_, Or.inl rfl⟩
      rw [hdrain, if_neg hfq, hr]

/-- One server event preserves well-formedness, and every future evolves by
at most one admissible step. -/
theorem applyOp_preserves {α : Type} {s s' : Server α} {op : Op α}
    (hwf : WF s) (h : s.applyOp op = Except.ok s') :
    WF s' ∧ ∀ (fid : Nat) (r : RequestClass α), s.heap[fid]? = some r →
      ∃ r' : RequestClass α, s'.heap[fid]? = some r' ∧ futureStep r r' := by
  cases op with
  | req d t =>
    unfold Server.applyOp at h
    dsimp only at h
    cases h1 : s.request d t with
    | error e => rw [h1] at h; exact absurd h (by simp)
    | ok p =>
      obtain ⟨res, s1⟩ := p
      rw [h1] at h
      simp only [Except.ok.injEq] at h
      subst h
      obtain ⟨hwf1, -, hpres⟩ := request_preserves hwf h1
      refine ⟨hwf1, fun fid r hr => ⟨r, ?_, Or.inl rfl⟩⟩
      rw [hpres fid (List.getElem?_eq_some_iff.mp hr).1, hr]
  | income v i => exact handle_income_preserves hwf h
  | disc k =>
    cases k with
    | idx i => exact handle_disconnection_idx_preserves hwf h
    | sock sid =>
      rw [show s.applyOp (Op.disc (PyKey.sock sid)) =
        Except.error PyErr.typeError from rfl] at h
      exact absurd h (by simp)
  | shut =>
    unfold Server.applyOp at h
    simp only [Except.ok.injEq] at h
    subst h
    exact shutdown_preserves hwf

/-- Admissible single-future steps compose: once resolved, a future is
frozen, so the two-step evolution is again a single admissible step. -/
theorem futureStep_trans {α : Type} {r r' r'' : RequestClass α}
    (h1 : futureStep r r') (h2 : futureStep r' r'') : futureStep r r'' := by
  rcases h1 with he | ⟨hIP, hres⟩
  · subst he; exact h2
  · rcases h2 with he2 | ⟨hIP2, -⟩
    · subst he2; exact Or.inr ⟨hIP, hres⟩
    · exfalso
      rcases hres with ⟨v, hv⟩ | hv <;> rw [hv] at hIP2 <;>
        simp [doneReq, discReq] at hIP2

/-- A sequence of server events preserves well-formedness, and every future
evolves by at most one admissible step over the whole run. -/
theorem applyOps_preserves {α : Type} :
    ∀ (ops : List (Op α)) {s s' : Server α}, WF s →
      s.applyOps ops = Except.ok s' →
      WF s' ∧ ∀ (fid : Nat) (r : RequestClass α), s.heap[fid]? = some r →
        ∃ r' : RequestClass α, s'.heap[fid]? = some r' ∧ futureStep r r'
  | [], s, s', hwf, h => by
    unfold Server.applyOps at h
    simp only [Except.ok.injEq] at h
    subst h
    exact ⟨hwf, fun fid r hr => ⟨r, hr, Or.inl rfl⟩⟩
  | op :: ops, s, s', hwf, h => by
    unfold Server.applyOps at h
    cases h1 : s.applyOp op with
    | error e => rw [h1] at h; exact absurd h (by simp)
    | ok s1 =>
      rw [h1] at h
      obtain ⟨hwf1, hstep1⟩ := applyOp_preserves hwf h1
      obtain ⟨hwf2, hstep2⟩ := applyOps_preserves ops hwf1 h
      refine ⟨hwf2, fun fid r hr => ?_⟩
      obtain ⟨r1, hr1, hs1⟩ := hstep1 fid r hr
      obtain ⟨r2, hr2, hs2⟩ := hstep2 fid r1 hr1
      exact ⟨r2, hr2, futureStep_trans hs1 hs2⟩

/-- Evaluation of one `request` event with an in-range integer target. -/
theorem applyOp_req_int_eval {α : Type} {s : Server α} {d : α} {i : Nat}
    (hi : i < s.nodes.length) :
    s.applyOp (Op.req d (NodeIdArg.int i)) = Except.ok
      { s with
        heap := s.heap ++ [mkRequestClass d],
        nodes := modifyAt (fun n => { requests := n.requests ++ [s.heap.length] }) i s.nodes,
        sent := s.sent ++ [(i, d)] } := by
  unfold Server.applyOp Server.request Server.request_to_one_node
  dsimp only
  rw [if_pos hi]

/-- Evaluation of one `handle_income` event on a node with a non-empty queue. -/
theorem handle_income_eval {α : Type} {s : Server α} {v : α} {i : Nat}
    {node : ConnectedNode} (hn : s.nodes[i]? = some node)
    {fid : Nat} {rest2 : List Nat} (hq : node.requests = fid :: rest2) :
    s.handle_income v i = Except.ok
      { s with
        heap := modifyAt (doneReq v) fid s.heap,
        nodes := modifyAt (fun _ => { requests := rest2 }) i s.nodes } := by
  unfold Server.handle_income pyGet
  rw [hn]
  dsimp only
  rw [hq]

/-- The issue phase: sending the payloads `ds` to node `i` appends fresh
`InProgress` futures at consecutive heap addresses and appends exactly those
addresses, in order, to the tail of node `i`'s queue. -/
theorem issue_phase {α : Type} :
    ∀ (ds : List α) {s : Server α} {i : Nat} (hi : i < s.nodes.length),
      ∃ s1 : Server α, s.applyOps (issueOps i ds) = Except.ok s1 ∧
        s1.heap = s.heap ++ ds.map mkRequestClass ∧
        s1.nodes.length = s.nodes.length ∧
        s1.nodes[i]? =
          some { requests := s.nodes[i].requests ++ List.range' s.heap.length ds.length } ∧
        ∀ j, j ≠ i → s1.nodes[j]? = s.nodes[j]?
  | [], s, i, hi => by
    refine ⟨s, rfl, by simp, rfl, ?_, fun j _ => rfl⟩
    rw [List.getElem?_eq_getElem hi]
    simp
  | d :: ds', s, i, hi => by
    have hstep := @applyOp_req_int_eval α s d i hi
    set s1a : Server α :=
      { s with
        heap := s.heap ++ [mkRequestClass d],
        nodes := modifyAt (fun n => { requests := n.requests ++ [s.heap.length] }) i s.nodes,
        sent := s.sent ++ [(i, d)] } with hs1a
    have hi1 : i < s1a.nodes.length := by
      show i < (modifyAt _ i s.nodes).length
      rw [modifyAt_length]; exact hi
    obtain ⟨s2, happly, hheap, hlen, hqueue, hother⟩ := issue_phase ds' hi1
    refine ⟨s2, ?_, ?_, ?_, ?_, ?_⟩
    · show s.applyOps (Op.req d (NodeIdArg.int i) :: issueOps i ds') = Except.ok s2
      unfold Server.applyOps
      rw [hstep]
      exact happly
    · rw [hheap]
      show (s.heap ++ [mkRequestClass d]) ++ ds'.map mkRequestClass = _
      simp
    · rw [hlen]
      show (modifyAt _ i s.nodes).length = s.nodes.length
      rw [modifyAt_length]
    · rw [hqueue]
      have hnode1 : s1a.nodes[i] = { requests := s.nodes[i].requests ++ [s.heap.length] } := by
        have : s1a.nodes[i]? =
            some { requests := s.nodes[i].requests ++ [s.heap.length] } := by
          show (modifyAt _ i s.nodes)[i]? = _
          rw [getElem?_modifyAt_self, List.getElem?_eq_getElem hi]
          rfl
        rw [List.getElem?_eq_getElem hi1] at this
        exact Option.some.inj this
      rw [hnode1]
      have hL1 : s1a.heap.length = s.heap.length + 1 := by
        show (s.heap ++ [mkRequestClass d]).length = _
        simp
      rw [hL1]
      have : s.nodes[i].requests ++ [s.heap.length] ++
          List.range' (s.heap.length + 1) ds'.length =
          s.nodes[i].requests ++ List.range' s.heap.length (ds'.length + 1) := by
        rw [List.range'_succ, List.append_assoc]
        rfl
      rw [this]
      rfl
    · intro j hj
      rw [hother j hj]
      show (modifyAt _ i s.nodes)[j]? = s.nodes[j]?
      exact getElem?_modifyAt_ne _ i j s.nodes hj

/-- The respond phase: delivering the responses `vs` from node `i` pops the
leading `ids` of its queue one by one, marking the future at `ids[k]` as
`Done` with result `vs[k]`; futures outside `ids` are untouched. -/
theorem respond_phase {α : Type} :
    ∀ (vs : List α) (ids rest : List Nat) {s : Server α} {i : Nat},
      s.nodes[i]? = some { requests := ids ++ rest } →
      vs.length = ids.length →
      ids.Nodup →
      ∃ s2 : Server α, s.applyOps (respondOps i vs) = Except.ok s2 ∧
        (∀ fid, fid ∉ ids → s2.heap[fid]? = s.heap[fid]?) ∧
        (∀ k (hk1 : k < ids.length) (hk2 : k < vs.length),
          s2.heap[ids[k]]? = (s.heap[ids[k]]?).map (doneReq vs[k]))
  | [], ids, rest, s, i, hn, hlen, hnd => by
    have hids : ids = [] := List.length_eq_zero.mp (by simpa using hlen.symm)
    subst hids
    exact ⟨s, rfl, fun _ _ => rfl, fun k hk1 _ => absurd hk1 (by simp)⟩
  | v :: vs', ids, rest, s, i, hn, hlen, hnd => by
    cases ids with
    | nil => exact absurd hlen (by simp)
    | cons a ids' =>
      have hq : ({ requests := (a :: ids') ++ rest } : ConnectedNode).requests
          = a :: (ids' ++ rest) := rfl
      have hstep := @handle_income_eval α s v i { requests := a :: ids' ++ rest } hn a (ids' ++ rest) hq
      set s1 : Server α :=
        { s with
          heap := modifyAt (doneReq v) a s.heap,
          nodes := modifyAt (fun _ => { requests := ids' ++ rest }) i s.nodes } with hs1
      have hn1 : s1.nodes[i]? = some { requests := ids' ++ rest } := by
        show (modifyAt _ i s.nodes)[i]? = _
        rw [getElem?_modifyAt_self, hn]
        rfl
      have hnd' : ids'.Nodup := (List.nodup_cons.mp hnd).2
      have hna : a ∉ ids' := (List.nodup_cons.mp hnd).1
      obtain ⟨s2, happly, huntouched, hdone⟩ :=
        respond_phase vs' ids' rest hn1 (by simpa using hlen) hnd'
      refine ⟨s2, ?_, ?_, ?_⟩
      · show s.applyOps (Op.income v i :: respondOps i vs') = Except.ok s2
        unfold Server.applyOps
        rw [show s.applyOp (Op.income v i) = s.handle_income v i from rfl, hstep]
        exact happly
      · intro fid hfid
        have hfid' : fid ∉ ids' := fun hmem => hfid (List.mem_cons_of_mem a hmem)
        have hfa : fid ≠ a := fun he => hfid (he ▸ List.mem_cons_self a ids')
        rw [huntouched fid hfid']
        show (modifyAt (doneReq v) a s.heap)[fid]? = s.heap[fid]?
        exact getElem?_modifyAt_ne _ a fid s.heap hfa
      · intro k hk1 hk2
        cases k with
        | zero =>
          show s2.heap[a]? = (s.heap[a]?).map (doneReq v)
          rw [huntouched a hna]
          show (modifyAt (doneReq v) a s.heap)[a]? = _
          exact getElem?_modifyAt_self _ a s.heap
        | succ k' =>
          have hk1' : k' < ids'.length := by simpa using hk1
          have hk2' : k' < vs'.length := by simpa using hk2
          have hne : ids'[k'] ≠ a := by
            intro he
            exact hna (he ▸ List.getElem_mem hk1')
          have := hdone k' hk1' hk2'
          show s2.heap[ids'[k']]? = (s.heap[ids'[k']]?).map (doneReq vs'[k'])
          rw [this]
          show ((modifyAt (doneReq v) a s.heap)[ids'[k']]?).map _ = _
          rw [getElem?_modifyAt_ne _ a _ s.heap hne]

/- ——— Codec lemmas ——— -/

theorem toDigitsLE_val :
    ∀ n : Nat, (toDigitsLE n).foldr (fun d acc => acc * 10 + d) 0 = n := by
  intro n
  induction n using Nat.strong_induction_on with
  | _ n ih =>
    cases n with
    | zero => simp [toDigitsLE]
    | succ m =>
      rw [toDigitsLE]
      simp only [List.foldr_cons]
      rw [ih ((m + 1) / 10) (Nat.div_lt_self (Nat.succ_pos m) (by omega))]
      omega

theorem toDigitsLE_lt_ten :
    ∀ (n : Nat) (d : Nat), d ∈ toDigitsLE n → d < 10 := by
  intro n
  induction n using Nat.strong_induction_on with
  | _ n ih =>
    cases n with
    | zero => intro d hd; rw [toDigitsLE] at hd; exact absurd hd (by simp)
    | succ m =>
      intro d hd
      rw [toDigitsLE] at hd
      rcases List.mem_cons.mp hd with he | hrec
      · subst he; exact Nat.mod_lt _ (by omega)
      · exact ih ((m + 1) / 10) (Nat.div_lt_self (Nat.succ_pos m) (by omega)) d hrec

theorem toDigitsLE_length_le :
    ∀ (k n : Nat), n < 10 ^ k → (toDigitsLE n).length ≤ k
  | k, 0, _ => by rw [toDigitsLE]; simp
  | 0, m + 1, h => by omega
  | k + 1, m + 1, h => by
    rw [toDigitsLE]
    simp only [List.length_cons]
    have hdiv : (m + 1) / 10 < 10 ^ k := by
      rw [Nat.div_lt_iff_lt_mul (by omega)]
      calc m + 1 < 10 ^ (k + 1) := h
        _ = 10 ^ k * 10 := by rw [Nat.pow_succ]
    have := toDigitsLE_length_le k ((m + 1) / 10) hdiv
    omega

theorem decDigits_ne_nil (n : Nat) : decDigits n ≠ [] := by
  unfold decDigits
  by_cases h : n = 0
  · simp [h]
  · rw [if_neg h]
    intro hrev
    have : toDigitsLE n = [] := by
      have h2 := congrArg List.length hrev
      simp at h2
      exact h2
    cases n with
    | zero => exact h rfl
    | succ m => rw [toDigitsLE] at this; exact absurd this (by simp)

theorem decDigits_lt_ten {n d : Nat} (hd : d ∈ decDigits n) : d < 10 := by
  unfold decDigits at hd
  by_cases h : n = 0
  · rw [if_pos h] at hd
    simp at hd
    omega
  · rw [if_neg h] at hd
    exact toDigitsLE_lt_ten n d (List.mem_reverse.mp hd)

theorem decDigits_val (n : Nat) :
    (decDigits n).foldl (fun acc d => acc * 10 + d) 0 = n := by
  unfold decDigits
  by_cases h : n = 0
  · simp [h]
  · rw [if_neg h, List.foldl_reverse]
    exact toDigitsLE_val n

theorem decDigits_length_le {k n : Nat} (hk : 1 ≤ k) (h : n < 10 ^ k) :
    (decDigits n).length ≤ k := by
  unfold decDigits
  by_cases h0 : n = 0
  · rw [if_pos h0]; simpa using hk
  · rw [if_neg h0, List.length_reverse]
    exact toDigitsLE_length_le k n h

theorem foldlM_digitCodes :
    ∀ (ds : List Nat) (acc : Nat), (∀ d ∈ ds, d < 10) →
      List.foldlM
        (fun acc c => if 48 ≤ c ∧ c ≤ 57 then some (acc * 10 + (c - 48)) else none)
        acc (ds.map digitCode) =
        some (ds.foldl (fun a d => a * 10 + d) acc)
  | [], acc, _ => rfl
  | d :: ds, acc, hlt => by
    have hd : d < 10 := hlt d (List.mem_cons_self d ds)
    have hcond : 48 ≤ digitCode d ∧ digitCode d ≤ 57 := by
      unfold digitCode; omega
    simp only [List.map_cons, List.foldlM_cons, if_pos hcond]
    have harith : acc * 10 + (digitCode d - 48) = acc * 10 + d := by
      unfold digitCode; omega
    rw [show (some (acc * 10 + (digitCode d - 48)) >>= fun b =>
        List.foldlM _ b (ds.map digitCode)) =
        List.foldlM (fun acc c => if 48 ≤ c ∧ c ≤ 57 then
          some (acc * 10 + (c - 48)) else none) (acc * 10 + (digitCode d - 48))
          (ds.map digitCode) from rfl]
    rw [harith,
      foldlM_digitCodes ds (acc * 10 + d) (fun x hx => hlt x (List.mem_cons_of_mem d hx))]
    rw [List.foldl_cons]

theorem parseDigits_map_digitCode {ds : List Nat} (hne : ds ≠ [])
    (hlt : ∀ d ∈ ds, d < 10) :
    parseDigits (ds.map digitCode) =
      some (ds.foldl (fun a d => a * 10 + d) 0) := by
  cases ds with
  | nil => exact absurd rfl hne
  | cons d ds' =>
    unfold parseDigits
    rw [if_neg (by simp)]
    exact foldlM_digitCodes (d :: ds') 0 hlt

theorem isSpaceByte_digitCode (d : Nat) : isSpaceByte (digitCode d) = false := by
  simp only [isSpaceByte, digitCode]
  simp only [Bool.or_eq_false_iff, decide_eq_false_iff_not]
  omega

theorem isSpaceByte_spaceCode : isSpaceByte spaceCode = true := rfl

theorem dropWhile_replicate_append {p : Nat → Bool} {a : Nat} (hp : p a = true) :
    ∀ (k : Nat) (l : List Nat),
      (List.replicate k a ++ l).dropWhile p = l.dropWhile p
  | 0, l => by simp
  | k + 1, l => by
    rw [List.replicate_succ, List.cons_append, List.dropWhile_cons, if_pos hp]
    exact dropWhile_replicate_append hp k l

theorem pyStrip_append_spaces {cs : List Nat} (k : Nat) (hne : cs ≠ [])
    (h : ∀ c ∈ cs, isSpaceByte c = false) :
    pyStrip (cs ++ List.replicate k spaceCode) = cs := by
  unfold pyStrip
  have h1 : (cs ++ List.replicate k spaceCode).dropWhile isSpaceByte =
      cs ++ List.replicate k spaceCode := by
    cases cs with
    | nil => exact absurd rfl hne
    | cons c cs' =>
      rw [List.cons_append, List.dropWhile_cons,
        if_neg (by rw [h c (List.mem_cons_self c cs')]; simp)]
  rw [h1, List.reverse_append, List.reverse_replicate,
    dropWhile_replicate_append isSpaceByte_spaceCode]
  cases hrev : cs.reverse with
  | nil => exact absurd (by simpa using congrArg List.reverse hrev) hne
  | cons b bs =>
    have hb : b ∈ cs := by
      rw [← List.mem_reverse, hrev]
      exact List.mem_cons_self b bs
    rw [List.dropWhile_cons, if_neg (by rw [h b hb]; simp), ← hrev,
      List.reverse_reverse]

theorem headerBytes_length {n : Nat} (h : n < 10 ^ 10) :
    (headerBytes n).length = 10 := by
  unfold headerBytes
  have := decDigits_length_le (by omega) h
  simp only [List.length_append, List.length_map, List.length_replicate]
  omega

theorem parseHeaderInt_headerBytes (n : Nat) :
    parseHeaderInt (headerBytes n) = some n := by
  unfold parseHeaderInt
  have hall : (headerBytes n).all (fun c => c < 128) = true := by
    rw [List.all_eq_true]
    intro x hx
    unfold headerBytes at hx
    rcases List.mem_append.mp hx with hdig | hsp
    · obtain ⟨d, hd, he⟩ := List.mem_map.mp hdig
      have := decDigits_lt_ten hd
      subst he
      simp only [digitCode, decide_eq_true_eq]
      omega
    · have := (List.mem_replicate.mp hsp).2
      subst this
      simp [spaceCode]
  rw [if_pos hall]
  have hstrip : pyStrip (headerBytes n) = (decDigits n).map digitCode := by
    unfold headerBytes
    apply pyStrip_append_spaces
    · intro hmap
      exact decDigits_ne_nil n (List.map_eq_nil_iff.mp hmap)
    · intro c hc
      obtain ⟨d, hd, he⟩ := List.mem_map.mp hc
      subst he
      exact isSpaceByte_digitCode d
  simp only [hstrip]
  cases hdd : decDigits n with
  | nil => exact absurd hdd (decDigits_ne_nil n)
  | cons d ds =>
    have hd10 : d < 10 := decDigits_lt_ten (hdd ▸ List.mem_cons_self d ds)
    have hhead : ((d :: ds).map digitCode).head? ≠ some 43 := by
      simp only [List.map_cons, List.head?_cons]
      intro hcontra
      have : digitCode d = 43 := Option.some.inj hcontra
      unfold digitCode at this
      omega
    rw [if_neg hhead]
    rw [parseDigits_map_digitCode (by simp) (fun x hx => decDigits_lt_ten (hdd ▸ hx))]
    rw [← hdd, decDigits_val]

/-- Frame round trip: decoding a stream that begins with the frame produced
by `send_raw` yields the original value and consumes exactly the frame. -/
theorem recv_raw_frame {α : Type} (loads : List Nat → Option α) (v : α)
    (m rest : List Nat) (hl : loads m = some v) (hlen : m.length < 10 ^ 10) :
    recv_raw loads (headerBytes m.length ++ m ++ rest) = (some v, rest) := by
  unfold recv_raw recvStream
  have hh10 : (headerBytes m.length).length = 10 := headerBytes_length hlen
  have htake : (headerBytes m.length ++ m ++ rest).take 10 = headerBytes m.length := by
    rw [List.append_assoc]
    exact List.take_left' hh10
  have hdrop : (headerBytes m.length ++ m ++ rest).drop 10 = m ++ rest := by
    rw [List.append_assoc]
    exact List.drop_left' hh10
  simp only [htake, hdrop, hh10]
  rw [if_neg (by omega)]
  rw [parseHeaderInt_headerBytes]
  simp only [List.take_left, List.drop_left, hl]

/-- Successful lookup behind a successful `statusAt`. -/
theorem getElem?_of_statusAt {α : Type} {s : Server α} {fid : Nat}
    {st : RequestStatus} (h : statusAt s fid = some st) :
    ∃ r : RequestClass α, s.heap[fid]? = some r ∧ r.status = st := by
  unfold statusAt at h
  cases hh : s.heap[fid]? with
  | none => rw [hh] at h; exact absurd h (by simp)
  | some r =>
    rw [hh] at h
    exact ⟨r, rfl, Option.some.inj h⟩

/-- Composition of `applyOps` over concatenated event lists. -/
theorem applyOps_append {α : Type} :
    ∀ (l1 l2 : List (Op α)) (s : Server α),
      s.applyOps (l1 ++ l2) =
        match s.applyOps l1 with
        | Except.error e => Except.error e
        | Except.ok s1 => s1.applyOps l2
  | [], l2, s => rfl
  | op :: l1, l2, s => by
    have hcons : ∀ (t : Server α) (ops : List (Op α)), t.applyOps (op :: ops) =
        match t.applyOp op with
        | Except.error e => Except.error e
        | Except.ok s1 => s1.applyOps ops := fun t ops => rfl
    rw [show (op :: l1) ++ l2 = op :: (l1 ++ l2) from rfl, hcons, hcons]
    cases h1 : s.applyOp op with
    | error e => rfl
    | ok s1 => exact applyOps_append l1 l2 s1

/- ——— Claim theorems ——— -/

/-- C1: for a node whose queue starts empty, issuing the payloads `ds` in
order and then receiving the worker's responses `vs` in the same order
resolves exactly the futures created by the issue phase, positionally: the
future created by the k-th `add_request` (living at heap address
`s.heap.length + k`, the value `request_to_one_node` returned for it) holds
the k-th request payload, ends with status `Done`, and stores the k-th
response value — `add_request` appends to the tail and `finish_request` pops
the head, so correlation is strictly FIFO. -/
theorem C1_fifo_response_correlation {α : Type} {s s2 : Server α} {i : Nat}
    (ds vs : List α) (hi : i < s.nodes.length)
    (hq0 : s.nodes[i].requests = [])
    (hlen : vs.length = ds.length)
    (h : s.applyOps (issueOps i ds ++ respondOps i vs) = Except.ok s2) :
    ∀ (k : Nat) (hk1 : k < ds.length) (hk2 : k < vs.length),
      s2.heap[s.heap.length + k]? =
        some { request := ds[k], status := RequestStatus.Done,
               _result := ResultSlot.val vs[k] } := by
  obtain ⟨s1, happly1, hheap1, -, hqueue1, -⟩ := issue_phase ds hi
  rw [applyOps_append, happly1] at h
  dsimp only at h
  have hqueue1' : s1.nodes[i]? =
      some { requests := List.range' s.heap.length ds.length ++ [] } := by
    rw [hqueue1, hq0]
    simp
  obtain ⟨s2', happly2, -, hdone⟩ :=
    respond_phase vs (List.range' s.heap.length ds.length) [] hqueue1'
      (by simpa using hlen) (List.nodup_range' _ _)
  have hs2 : s2' = s2 := by
    rw [happly2] at h
    exact Except.ok.inj h
  subst hs2
  intro k hk1 hk2
  have hk1' : k < (List.range' s.heap.length ds.length).length := by
    simpa using hk1
  have hidk : (List.range' s.heap.length ds.length)[k] = s.heap.length + k := by
    simp
  have := hdone k hk1' hk2
  rw [hidk] at this
  rw [this, hheap1]
  rw [List.getElem?_append_right (Nat.le_add_right _ _)]
  rw [Nat.add_sub_cancel_left]
  rw [List.getElem?_map, List.getElem?_eq_getElem hk1]
  rfl

/-- C2 (code bug in `Server.wait_node`): the spin loop
`while self.nodes[node_id].is_busy()==False: pass` exits exactly when the
guard is false, i.e. when `is_busy()` is `True` — so `wait_node` returns
precisely when the node's queue is NON-empty, the opposite of the claimed
(and docstring-documented) behaviour; `wait_all_nodes`' loop
`while any([node.is_busy() ...]): pass` is correct and returns exactly when
every queue is empty. -/
theorem C2_wait_node_guard_inverted :
    ∀ (n : ConnectedNode) (ns : List ConnectedNode),
      (wait_node_guard n = false ↔ n.requests ≠ []) ∧
      (wait_all_guard ns = false ↔ ∀ m ∈ ns, m.requests = []) := by
  intro n ns
  constructor
  · unfold wait_node_guard ConnectedNode.is_busy
    cases n.requests <;> simp
  · unfold wait_all_guard
    rw [List.any_eq_false]
    constructor
    · intro h m hm
      have := h m hm
      unfold ConnectedNode.is_busy at this
      simpa using this
    · intro h m hm
      unfold ConnectedNode.is_busy
      simp [h m hm]

/-- C3 counterexample: with an executor whose `execute` raises (division by
zero) and a send channel that would succeed, `BaseNode.handle_request` sends
NO response frame and lets the exception escape — `result = self.execute(request)`
stands outside the `try` block, which guards only `send_raw`. -/
theorem C3_counterexample :
    handle_request (fun _ => Except.ok true)
      (fun _ => Except.error { msg := "ZeroDivisionError: division by zero" })
      (fun _ => none) (NVal.str "1/0") =
      ([], some { msg := "ZeroDivisionError: division by zero" }) := rfl

/-- C3 amended: `BaseNode.handle_request` catches only failures of sending
the response (substituting the exception object as the payload); an exception
raised by `execute` itself propagates out of `handle_request` uncaught and no
response frame is produced for that request. A caller's future resolves to an
error value only when the executor catches internally, as
`ExecutorLocalScopeOnly.execute_item` does by returning the caught exception
as the result. -/
theorem C3_execute_error_propagates
    (verify : NVal → Except Exc Bool) (execute : NVal → Except Exc NVal)
    (send : NVal → Option Exc) (evalFn : NVal → Except Exc NVal)
    (req : NVal) (e : Exc)
    (hv : verify req = Except.ok true) (hx : execute req = Except.error e)
    (hev : evalFn req = Except.error e) (hs : send (NVal.exc e) = none) :
    handle_request verify execute send req = ([], some e) ∧
    handle_request verify (execute_item evalFn) send req = ([NVal.exc e], none) := by
  constructor
  · unfold handle_request
    rw [hv]
    dsimp only
    rw [if_pos rfl, hx]
  · unfold handle_request
    rw [hv]
    dsimp only
    rw [if_pos rfl]
    unfold execute_item
    rw [hev]
    dsimp only
    rw [hs]

/-- C4: whenever a node record is dropped — by `handle_disconnection` with a
valid index, or by `shutdown` rebinding `self.nodes = []` — the finalizer
`ConnectedNode.__del__` force-resolves every queued future to `Disconnected`
with `NoResult` (so `result()` returns `NoResult` instead of spinning
forever), and the node leaves the active collection. -/
theorem C4_drop_resolves_futures {α : Type} (s : Server α) (hwf : WF s) :
    (∀ (i : Nat) (hi : i < s.nodes.length) (s' : Server α),
      s.handle_disconnection (PyKey.idx i) = Except.ok s' →
        s'.nodes = s.nodes.eraseIdx i ∧
        ∀ fid ∈ s.nodes[i].requests, ∃ r : RequestClass α,
          s.heap[fid]? = some r ∧
          s'.heap[fid]? = some { r with status := RequestStatus.Disconnected,
                                        _result := ResultSlot.NoResult } ∧
          RequestClass.resultSpin
              { r with status := RequestStatus.Disconnected,
                       _result := ResultSlot.NoResult } =
            some ResultSlot.NoResult) ∧
    ((s.shutdown).nodes = [] ∧ (s.shutdown).active = false ∧
      ∀ (i : Nat) (hi : i < s.nodes.length), ∀ fid ∈ s.nodes[i].requests,
        ∃ r : RequestClass α, s.heap[fid]? = some r ∧
          (s.shutdown).heap[fid]? =
            some { r with status := RequestStatus.Disconnected,
                          _result := ResultSlot.NoResult }) := by
  constructor
  · intro i hi s' h
    obtain ⟨hi', hheap, hnodes, -⟩ := handle_disconnection_idx_spec h
    refine ⟨hnodes, fun fid hfid => ?_⟩
    obtain ⟨r, hr, -⟩ :=
      getElem?_of_statusAt (hwf.2 fid (mem_queuedIds_of_mem_queue hi hfid))
    refine ⟨r, hr, ?_, rfl⟩
    rw [hheap, delNode_getElem?, if_pos hfid, hr]
    rfl
  · refine ⟨rfl, rfl, fun i hi fid hfid => ?_⟩
    have hmem : fid ∈ (s.nodes.map ConnectedNode.requests).flatten :=
      mem_queuedIds_of_mem_queue hi hfid
    obtain ⟨r, hr, -⟩ := getElem?_of_statusAt (hwf.2 fid hmem)
    refine ⟨r, hr, ?_⟩
    show (s.nodes.foldl (fun h n => delNode h n.requests) s.heap)[fid]? = _
    rw [drainAll_getElem?, if_pos hmem, hr]
    rfl

/-- C5: under any sequence of server events from a well-formed state, a
future's status changes at most once, from `InProgress` to `Done` or to
`Disconnected`, and never changes again afterwards; once resolved, the
record (status and stored result) is frozen, so every later `result()` call
returns the same stored slot. -/
theorem C5_status_monotonic {α : Type} {s s' : Server α} (ops : List (Op α))
    (hwf : WF s) (h : s.applyOps ops = Except.ok s') :
    ∀ (fid : Nat) (r : RequestClass α), s.heap[fid]? = some r →
      ∃ r' : RequestClass α, s'.heap[fid]? = some r' ∧
        (r.status ≠ RequestStatus.InProgress → r' = r) ∧
        (r'.status ≠ r.status → r.status = RequestStatus.InProgress ∧
          (r'.status = RequestStatus.Done ∨
            r'.status = RequestStatus.Disconnected)) ∧
        (∀ slot, r.resultSpin = some slot → r'.resultSpin = some slot) := by
  intro fid r hr
  obtain ⟨-, hstep⟩ := applyOps_preserves ops hwf h
  obtain ⟨r', hr', hfs⟩ := hstep fid r hr
  have hfrozen : r.status ≠ RequestStatus.InProgress → r' = r := by
    intro hnip
    rcases hfs with he | ⟨hip, -⟩
    · exact he
    · exact absurd hip hnip
  refine ⟨r', hr', hfrozen, ?_, ?_⟩
  · intro hchange
    rcases hfs with he | ⟨hip, hres⟩
    · exact absurd (he ▸ rfl) hchange
    · refine ⟨hip, ?_⟩
      rcases hres with ⟨v, hv⟩ | hv
      · exact Or.inl (by rw [hv]; rfl)
      · exact Or.inr (by rw [hv]; rfl)
  · intro slot hslot
    have hnip : r.status ≠ RequestStatus.InProgress := by
      unfold RequestClass.resultSpin at hslot
      intro hip
      rw [hip] at hslot
      exact absurd hslot (by simp)
    rw [hfrozen hnip]
    exact hslot

/-- C6: for every value the peers' common serializer round-trips
(`loads (dumps v) = v`) whose serialized form is shorter than `10^10` bytes,
decoding the frame produced by `send_raw` (10-byte left-justified
space-padded decimal length header plus exactly that many payload bytes)
yields the original value and consumes exactly the frame. -/
theorem C6_frame_roundtrip {α : Type} (dumps : α → Except String (List Nat))
    (loads : List Nat → Option α) (v : α) (m rest : List Nat)
    (hd : dumps v = Except.ok m) (hl : loads m = some v)
    (hlen : m.length < 10 ^ 10) :
    ∃ frame : List Nat, send_raw_bytes dumps v = Except.ok frame ∧
      recv_raw loads (frame ++ rest) = (some v, rest) := by
  refine ⟨headerBytes m.length ++ m, ?_, recv_raw_frame loads v m rest hl hlen⟩
  unfold send_raw_bytes
  rw [hd]

/-- C7 counterexample: on a stream whose first 10 bytes are the letters
`aaaaaaaaaa` (a non-empty but malformed header), `recv_raw` returns the very
same `False` sentinel it returns for a closed connection, refuting that the
sentinel appears exactly on a zero-length header read. -/
theorem C7_counterexample :
    (List.replicate 10 97).length ≠ 0 ∧
    recv_raw (fun l => some l) (List.replicate 10 97) =
      (none, ([] : List Nat)) := ⟨by decide, by rfl⟩

/-- C7 amended: `recv_raw` returns the `False` sentinel exactly when the
header read yields zero bytes OR any exception is caught inside the `try`
(malformed header, failing deserialization) — a malformed header is logged
via `logger.exception` but surfaces through the very same sentinel as an
ordinary disconnection, indistinguishable from the return value. -/
theorem C7_sentinel_characterization {α : Type} (loads : List Nat → Option α)
    (s : List Nat) :
    (recv_raw loads s).1 = none ↔
      (s = [] ∨ parseHeaderInt (s.take 10) = none ∨
        ∃ len : Nat, parseHeaderInt (s.take 10) = some len ∧
          loads ((s.drop 10).take len) = none) := by
  unfold recv_raw recvStream
  dsimp only
  by_cases hs : s = []
  · subst hs
    simp
  · have hlen0 : (s.take 10).length ≠ 0 := by
      rw [List.length_take]
      have : 0 < s.length := List.length_pos.mpr hs
      omega
    rw [if_neg hlen0]
    cases hp : parseHeaderInt (s.take 10) with
    | none =>
      simp only [hp]
      constructor
      · intro _; exact Or.inr (Or.inl trivial)
      · intro _; trivial
    | some len =>
      cases hl : loads ((s.drop 10).take len) with
      | none =>
        simp only [hp, hl]
        constructor
        · intro _
          refine Or.inr (Or.inr ⟨len, rfl, ?_⟩)
          exact hl
        · intro _; trivial
      | some v =>
        simp only [hp, hl]
        constructor
        · intro hcontra; exact absurd hcontra (by simp)
        · intro hcontra
          rcases hcontra with he | hpn | ⟨len2, hlen2, hload2⟩
          · exact absurd he hs
          · exact absurd hpn (by simp)
          · have hll : len2 = len := (Option.some.inj hlen2).symm
            subst hll
            rw [hl] at hload2
            exact absurd hload2 (by simp)

/-- C8 counterexample: when `pickle.dumps` fails inside `Server.send_raw`,
the `except` clause logs and re-raises — no frame (no encoded representation
of the failure) is sent in place of the original value. -/
theorem C8_counterexample :
    send_raw_bytes (fun _ => Except.error "PicklingError") (NVal.str "x") =
      Except.error "PicklingError" := rfl

/-- C8 amended: the two encode sites behave differently. At the worker's
response send (`BaseNode.handle_request`), a serialization failure is caught
and the exception object itself is sent in place of the original value, and
nothing escapes (the connection survives). At `Server.send_raw`, a
serialization failure is logged and re-raised to the caller with nothing
sent in place of the value. -/
theorem C8_send_failure_sites (dumps : NVal → Except String (List Nat))
    (verify : NVal → Except Exc Bool) (execute : NVal → Except Exc NVal)
    (send : NVal → Option Exc) (req result0 : NVal) (e : Exc) (es : String)
    (hv : verify req = Except.ok true) (hx : execute req = Except.ok result0)
    (hs1 : send result0 = some e) (hs2 : send (NVal.exc e) = none)
    (hd : dumps req = Except.error es) :
    handle_request verify execute send req = ([NVal.exc e], none) ∧
    send_raw_bytes dumps req = Except.error es := by
  constructor
  · unfold handle_request
    rw [hv]
    dsimp only
    rw [if_pos rfl, hx]
    dsimp only
    rw [hs1]
    dsimp only
    rw [hs2]
  · unfold send_raw_bytes
    rw [hd]

/-- C9 (code bug in `Server.listen`): the `exception_sockets` branch calls
`self.handle_disconnection(notified_socket)` with the socket object where an
integer index is required; `del self.nodes[node_id]` then raises `TypeError`
(a Python list cannot be indexed by a socket), so the node is NOT removed,
no queued future is resolved, and the exception propagates out of `listen`,
crashing the server loop instead of performing the EOF disconnection path. -/
theorem C9_exception_branch_raises {α : Type} (s : Server α) (sid : Nat) :
    s.handle_disconnection (PyKey.sock sid) = Except.error PyErr.typeError := rfl

/-- C10: `Server.request` dispatches only on `isinstance(node_id, int)` and
`isinstance(node_id, list)`; for any other argument type (a tuple of indices,
a string) the function falls off the end: it returns Python's implicit
`None`, leaves the whole server state unchanged (no future created, nothing
enqueued, nothing sent), and raises no error. -/
theorem C10_request_other_type_returns_none {α : Type} (s : Server α) (d : α)
    (l : List Nat) (str0 : String) :
    s.request d (NodeIdArg.tuple l) = Except.ok (ReqResult.retNone, s) ∧
    s.request d (NodeIdArg.str str0) = Except.ok (ReqResult.retNone, s) :=
  ⟨rfl, rfl⟩

/- ——— Witnesses ——— -/

/-- Witness for C1: two requests `10, 20` to node 0 followed by the ordered
responses `7, 9`; the second future (heap address 1) holds request `20`,
status `Done`, result `9`. -/
theorem C1_fifo_witness :
    (Server.mk true [ConnectedNode.mk []]
        [RequestClass.mk 10 RequestStatus.Done (ResultSlot.val 7),
         RequestClass.mk 20 RequestStatus.Done (ResultSlot.val 9)]
        [(0, 10), (0, 20)] : Server Nat).heap[0 + 1]? =
      some (RequestClass.mk 20 RequestStatus.Done (ResultSlot.val 9)) :=
  C1_fifo_response_correlation [10, 20] [7, 9] (by decide)
    (show (Server.mk true [ConnectedNode.mk []]
        ([] : List (RequestClass Nat)) []).nodes[0].requests = [] from rfl)
    rfl
    (show Server.applyOps
        (Server.mk true [ConnectedNode.mk []] ([] : List (RequestClass Nat)) [])
        (issueOps 0 [10, 20] ++ respondOps 0 [7, 9]) =
      Except.ok (Server.mk true [ConnectedNode.mk []]
        [RequestClass.mk 10 RequestStatus.Done (ResultSlot.val 7),
         RequestClass.mk 20 RequestStatus.Done (ResultSlot.val 9)]
        [(0, 10), (0, 20)]) from rfl)
    1 (by decide) (by decide)

/-- Witness for the amended C3: a concrete raising executor and a concrete
internally-catching one. -/
theorem C3_execute_error_witness :
    handle_request (fun _ => Except.ok true)
      (fun _ => Except.error (Exc.mk "ZeroDivisionError"))
      (fun _ => none) (NVal.str "1/0") = ([], some (Exc.mk "ZeroDivisionError")) ∧
    handle_request (fun _ => Except.ok true)
      (execute_item (fun _ => Except.error (Exc.mk "ZeroDivisionError")))
      (fun _ => none) (NVal.str "1/0") =
      ([NVal.exc (Exc.mk "ZeroDivisionError")], none) :=
  C3_execute_error_propagates _ _ _ _ (NVal.str "1/0")
    (Exc.mk "ZeroDivisionError") rfl rfl rfl rfl

/-- Witness for C4: one node with one outstanding request; after `shutdown`
its future is `Disconnected` with `NoResult`. -/
theorem C4_drop_witness :
    ∃ r : RequestClass Nat,
      (Server.mk true [ConnectedNode.mk [0]] [mkRequestClass 5] [] :
          Server Nat).heap[0]? = some r ∧
      ((Server.mk true [ConnectedNode.mk [0]] [mkRequestClass 5] [] :
          Server Nat).shutdown).heap[0]? =
        some { r with status := RequestStatus.Disconnected,
                      _result := ResultSlot.NoResult } :=
  (C4_drop_resolves_futures
      (Server.mk true [ConnectedNode.mk [0]] [mkRequestClass 5] [])
      (by decide)).2.2.2 0 (by decide) 0 (by decide)

/-- Witness for C5: over a disconnection event, the already-`Done` future at
heap address 0 keeps its record unchanged. -/
theorem C5_status_witness :
    (Server.mk false []
        [RequestClass.mk 5 RequestStatus.Done (ResultSlot.val 9),
         RequestClass.mk 6 RequestStatus.Disconnected ResultSlot.NoResult]
        [] : Server Nat).heap[0]? =
      some (RequestClass.mk 5 RequestStatus.Done (ResultSlot.val 9)) := by
  obtain ⟨r', hr', hfrozen, -, -⟩ :=
    C5_status_monotonic [Op.disc (PyKey.idx 0)] (by decide)
      (show Server.applyOps
          (Server.mk true [ConnectedNode.mk [1]]
            [RequestClass.mk 5 RequestStatus.Done (ResultSlot.val 9),
             mkRequestClass 6] ([] : List (Nat × Nat)))
          [Op.disc (PyKey.idx 0)] =
        Except.ok (Server.mk false []
          [RequestClass.mk 5 RequestStatus.Done (ResultSlot.val 9),
           RequestClass.mk 6 RequestStatus.Disconnected ResultSlot.NoResult]
          []) from rfl)
      0 (RequestClass.mk 5 RequestStatus.Done (ResultSlot.val 9)) rfl
  rw [hr', hfrozen (by decide)]

/-- Witness for C6: the identity serializer on byte lists round-trips the
payload `[1, 2, 3]` through the frame, leaving the trailing stream `[9]`. -/
theorem C6_frame_roundtrip_witness :
    ∃ frame : List Nat,
      send_raw_bytes (fun l : List Nat => Except.ok l) [1, 2, 3] =
        Except.ok frame ∧
      recv_raw (fun l => some l) (frame ++ [9]) = (some [1, 2, 3], [9]) :=
  C6_frame_roundtrip (fun l => Except.ok l) (fun l => some l) [1, 2, 3]
    [1, 2, 3] [9] rfl rfl (by decide)

/-- Witness for the amended C8: a result the send path cannot serialize is
replaced by the exception object at the worker site, while the server-side
`send_raw` re-raises with nothing sent. -/
theorem C8_send_failure_witness :
    handle_request (fun _ => Except.ok true) (fun _ => Except.ok (NVal.num 5))
      (fun v => match v with
        | NVal.num _ => some (Exc.mk "PicklingError")
        | _ => none)
      (NVal.str "x") = ([NVal.exc (Exc.mk "PicklingError")], none) ∧
    send_raw_bytes (fun _ => Except.error "PicklingError") (NVal.str "x") =
      Except.error "PicklingError" :=
  C8_send_failure_sites _ _ _ _ (NVal.str "x") (NVal.num 5)
    (Exc.mk "PicklingError") "PicklingError" rfl rfl rfl rfl rfl

end SocketNodes
